import Mathlib

/-!
Verification of the `create-nx-turbob` CLI scaffolder.

The development shallowly embeds the two TypeScript source files:
  * `src/utils/index.ts`  — filesystem helpers (`writeFile`, `writeJsonFile`,
    `readJsonFile`, `updateJsonFile`, `copyCliPackageTemplate`,
    `getPnpmVersion`, …), modelled over an explicit filesystem state;
  * `src/index.ts`        — the `init` / `app` orchestrators, modelled as
    pure functions producing a trace of filesystem / subprocess events.

JavaScript's `JSON.stringify` (both the compact one-argument form and the
two-space-indent form used by the sources) is embedded as an executable
serializer, and `JSON.parse` as an executable recursive-descent parser;
the round-trip theorem connecting them backs the specification's
round-trip law.  Strings are modelled as Lean strings (sequences of
unicode scalar values); JavaScript numbers only ever appear as small
integers in this program, so the numeric leaf is `Int`.
-/

namespace CreateNx

/-- The JSON data model: the values `JSON.stringify` / `JSON.parse`
exchange with this program. -/
inductive Json where
  | null : Json
  | bool (b : Bool) : Json
  | num (n : Int) : Json
  | str (s : String) : Json
  | arr (elems : List Json) : Json
  | obj (fields : List (String × Json)) : Json
deriving Inhabited

/-- JSON insignificant whitespace (also what `String.prototype.trim`
removes in the inputs this program produces). -/
def isWs (c : Char) : Bool :=
  c = ' ' || c = '\n' || c = '\r' || c = '\t'

/-- Model of JavaScript `String.prototype.trim`: drop leading and trailing
whitespace. -/
def trimChars (l : List Char) : List Char :=
  ((l.dropWhile isWs).reverse.dropWhile isWs).reverse

/-- `s.trim()` on a JavaScript string. -/
def jsTrim (s : String) : String :=
  String.mk (trimChars s.data)

/-- The decimal digit character for `k % 10` (as JavaScript number
formatting produces). -/
def digitChar (k : Nat) : Char :=
  Char.ofNat (48 + k % 10)

/-- Decimal digits of a natural number, most significant first. -/
def natChars (n : Nat) : List Char :=
  if h : n < 10 then [digitChar n]
  else natChars (n / 10) ++ [digitChar (n % 10)]
termination_by n
decreasing_by
  exact Nat.div_lt_self (by omega) (by omega)

/-- Decimal rendering of an integer, as `JSON.stringify` prints the
integral numbers this program serializes. -/
def intChars (n : Int) : List Char :=
  if n < 0 then '-' :: natChars (-n).toNat else natChars n.toNat

/-- Lowercase hexadecimal digit for `k % 16`-sized values (`k < 16` at
every use site). -/
def hexChar (k : Nat) : Char :=
  Char.ofNat (if k < 10 then 48 + k else 87 + k)

/-- `JSON.stringify`'s escaping of a single character inside a string
literal. -/
def escChar (c : Char) : List Char :=
  if c = '"' then ['\\', '"']
  else if c = '\\' then ['\\', '\\']
  else if c = '\x08' then ['\\', 'b']
  else if c = '\t' then ['\\', 't']
  else if c = '\n' then ['\\', 'n']
  else if c = '\x0c' then ['\\', 'f']
  else if c = '\r' then ['\\', 'r']
  else if c.toNat < 32 then
    ['\\', 'u', '0', '0', hexChar (c.toNat / 16), hexChar (c.toNat % 16)]
  else [c]

/-- Escape a whole string body. -/
def escString : List Char → List Char
  | [] => []
  | c :: cs => escChar c ++ escString cs

/-- A JSON string literal, quotes included. -/
def quoteString (s : String) : List Char :=
  '"' :: escString s.data ++ ['"']

/-- The character sequence of a literal token (`null`, `true`, `false`). -/
def lit (s : String) : List Char :=
  s.data

/-- The newline-plus-indent `JSON.stringify(·, null, 2)` inserts at depth
`d`; empty in compact mode. -/
def nlIndent (p : Bool) (d : Nat) : List Char :=
  if p then '\n' :: List.replicate (2 * d) ' ' else []

mutual

/-- `JSON.stringify` of a value at depth `d`; `p = true` is the
two-space-indent pretty mode (`JSON.stringify(v, null, 2)`), `p = false`
the compact single-argument mode. -/
def emit (p : Bool) (d : Nat) : Json → List Char
  | .null => lit "null"
  | .bool true => lit "true"
  | .bool false => lit "false"
  | .num n => intChars n
  | .str s => quoteString s
  | .arr [] => ['[', ']']
  | .arr (x :: xs) =>
      '[' :: (nlIndent p (d + 1) ++ emit p (d + 1) x ++
        emitArrTail p (d + 1) xs ++ nlIndent p d ++ [']'])
  | .obj [] => ['{', '}']
  | .obj (f :: fs) =>
      '{' :: (nlIndent p (d + 1) ++ emitField p (d + 1) f ++
        emitObjTail p (d + 1) fs ++ nlIndent p d ++ ['}'])

/-- One `"key": value` member. -/
def emitField (p : Bool) (d : Nat) : String × Json → List Char
  | (k, v) => quoteString k ++ ':' :: ((if p then [' '] else []) ++ emit p d v)

/-- `, value` continuations of an array literal. -/
def emitArrTail (p : Bool) (d : Nat) : List Json → List Char
  | [] => []
  | x :: xs => ',' :: (nlIndent p d ++ emit p d x ++ emitArrTail p d xs)

/-- `, "key": value` continuations of an object literal. -/
def emitObjTail (p : Bool) (d : Nat) : List (String × Json) → List Char
  | [] => []
  | f :: fs => ',' :: (nlIndent p d ++ emitField p d f ++ emitObjTail p d fs)

end

/-- `JSON.stringify(v, null, 2)` as a string. -/
def stringify2 (v : Json) : String :=
  String.mk (emit true 0 v)

/-- `JSON.stringify(v)` (compact) as a string. -/
def stringifyC (v : Json) : String :=
  String.mk (emit false 0 v)

mutual

/-- A fuel bound dominating the parser fuel needed to re-read a value. -/
def sizeJ : Json → Nat
  | .arr xs => 2 + sizeL xs
  | .obj fs => 2 + sizeF fs
  | _ => 1

def sizeL : List Json → Nat
  | [] => 1
  | x :: xs => 1 + sizeJ x + sizeL xs

def sizeF : List (String × Json) → Nat
  | [] => 1
  | f :: fs => 2 + sizeJ f.2 + sizeF fs

end

/-- Skip insignificant whitespace. -/
def skipWs (l : List Char) : List Char :=
  l.dropWhile isWs

/-- Value of a hexadecimal digit character. -/
def parseHex (c : Char) : Option Nat :=
  if c.isDigit then some (c.toNat - 48)
  else if 97 ≤ c.toNat && c.toNat ≤ 102 then some (c.toNat - 87)
  else if 65 ≤ c.toNat && c.toNat ≤ 70 then some (c.toNat - 55)
  else none

/-- Meaning of a single-character escape after a backslash. -/
def unescape (c : Char) : Option Char :=
  if c = '"' then some '"'
  else if c = '\\' then some '\\'
  else if c = '/' then some '/'
  else if c = 'b' then some '\x08'
  else if c = 'f' then some '\x0c'
  else if c = 'n' then some '\n'
  else if c = 'r' then some '\r'
  else if c = 't' then some '\t'
  else none

/-- Parse the body of a JSON string literal (opening quote already
consumed), returning the decoded characters and the input after the
closing quote. -/
def parseStringBody : List Char → Option (List Char × List Char)
  | [] => none
  | c :: rest =>
    if c = '"' then some ([], rest)
    else if c = '\\' then
      match rest with
      | [] => none
      | e :: rest2 =>
        if e = 'u' then
          match rest2 with
          | h1 :: h2 :: h3 :: h4 :: rest3 =>
            match parseHex h1, parseHex h2, parseHex h3, parseHex h4 with
            | some a, some b, some c2, some d2 =>
              match parseStringBody rest3 with
              | some (s, r) =>
                  some (Char.ofNat (((a * 16 + b) * 16 + c2) * 16 + d2) :: s, r)
              | none => none
            | _, _, _, _ => none
          | _ => none
        else
          match unescape e with
          | some u =>
            match parseStringBody rest2 with
            | some (s, r) => some (u :: s, r)
            | none => none
          | none => none
    else
      match parseStringBody rest with
      | some (s, r) => some (c :: s, r)
      | none => none
termination_by l => l.length
decreasing_by all_goals simp_wf <;> omega

/-- Read a run of decimal digits, accumulating their value. -/
def readDigits (acc : Nat) : List Char → Nat × List Char
  | [] => (acc, [])
  | c :: rest =>
    if c.isDigit then readDigits (10 * acc + (c.toNat - 48)) rest
    else (acc, c :: rest)

mutual

/-- Fueled recursive-descent JSON value parser (model of `JSON.parse`'s
grammar on the outputs this program writes).  Returns the value and the
unconsumed input. -/
def parseVal : Nat → List Char → Option (Json × List Char)
  | 0, _ => none
  | fuel + 1, s =>
    match skipWs s with
    | [] => none
    | c :: rest =>
      if c = '[' then parseArr fuel rest
      else if c = '{' then parseObj fuel rest
      else if c = '"' then
        match parseStringBody rest with
        | some (cs, r) => some (.str (String.mk cs), r)
        | none => none
      else if c = 'n' then
        match rest with
        | 'u' :: 'l' :: 'l' :: r => some (.null, r)
        | _ => none
      else if c = 't' then
        match rest with
        | 'r' :: 'u' :: 'e' :: r => some (.bool true, r)
        | _ => none
      else if c = 'f' then
        match rest with
        | 'a' :: 'l' :: 's' :: 'e' :: r => some (.bool false, r)
        | _ => none
      else if c = '-' then
        match rest with
        | d :: r2 =>
          if d.isDigit then
            let p := readDigits (d.toNat - 48) r2
            some (.num (-(p.1 : Int)), p.2)
          else none
        | [] => none
      else if c.isDigit then
        let p := readDigits (c.toNat - 48) rest
        some (.num (p.1 : Int), p.2)
      else none

/-- After `[`: either an immediate `]` or a first element followed by the
tail of the array. -/
def parseArr : Nat → List Char → Option (Json × List Char)
  | 0, _ => none
  | fuel + 1, s =>
    match skipWs s with
    | [] => none
    | c :: r =>
      if c = ']' then some (.arr [], r)
      else
        match parseVal fuel (c :: r) with
        | some (v, r1) =>
          match parseArrTail fuel r1 with
          | some (vs, r2) => some (.arr (v :: vs), r2)
          | none => none
        | none => none

/-- After an array element: `,` and another element, or the closing `]`. -/
def parseArrTail : Nat → List Char → Option (List Json × List Char)
  | 0, _ => none
  | fuel + 1, s =>
    match skipWs s with
    | [] => none
    | c :: r =>
      if c = ']' then some ([], r)
      else if c = ',' then
        match parseVal fuel r with
        | some (v, r1) =>
          match parseArrTail fuel r1 with
          | some (vs, r2) => some (v :: vs, r2)
          | none => none
        | none => none
      else none

/-- Parse one `"key": value` member (the input begins just after the
key's opening quote). -/
def parseMember : Nat → List Char → Option ((String × Json) × List Char)
  | fuel, s =>
    match parseStringBody s with
    | some (k, r) =>
      match skipWs r with
      | [] => none
      | c2 :: r2 =>
        if c2 = ':' then
          match parseVal fuel r2 with
          | some (v, r3) => some ((String.mk k, v), r3)
          | none => none
        else none
    | none => none

/-- After `{`: either an immediate `}` or a first member followed by the
tail of the object. -/
def parseObj : Nat → List Char → Option (Json × List Char)
  | 0, _ => none
  | fuel + 1, s =>
    match skipWs s with
    | [] => none
    | c :: r =>
      if c = '}' then some (.obj [], r)
      else if c = '"' then
        match parseMember fuel r with
        | some (f, r1) =>
          match parseObjTail fuel r1 with
          | some (fs, r2) => some (.obj (f :: fs), r2)
          | none => none
        | none => none
      else none

/-- After an object member: `,` and another member, or the closing `}`. -/
def parseObjTail : Nat → List Char → Option (List (String × Json) × List Char)
  | 0, _ => none
  | fuel + 1, s =>
    match skipWs s with
    | [] => none
    | c :: r =>
      if c = '}' then some ([], r)
      else if c = ',' then
        match skipWs r with
        | [] => none
        | c2 :: r2 =>
          if c2 = '"' then
            match parseMember fuel r2 with
            | some (f, r1) =>
              match parseObjTail fuel r1 with
              | some (fs, r3) => some (f :: fs, r3)
              | none => none
            | none => none
          else none
      else none

end

/-- `JSON.parse`: parse a complete JSON document, requiring only
whitespace after the value. -/
def parseJson (s : String) : Option Json :=
  match parseVal (2 * s.data.length + 2) s.data with
  | some (v, rest) => if skipWs rest = [] then some v else none
  | none => none

/-- Field access on a parsed JSON object. -/
def jGet (j : Json) (k : String) : Option Json :=
  match j with
  | .obj fs => fs.lookup k
  | _ => none

/-- Outcome of one `execSync` invocation with captured output: the
command's stdout, or a thrown error (any reason). -/
inductive CmdResult where
  | ok (out : String)
  | err
deriving DecidableEq

/-- Fields contributed by spreading a JavaScript value into an object
literal (`{...v}`): objects contribute their fields, arrays and strings
index-keyed entries, primitives nothing. -/
def spreadFields : Json → List (String × Json)
  | .obj fs => fs
  | .arr xs => xs.enum.map fun e => (String.mk (natChars e.1), e.2)
  | .str s => s.data.enum.map fun e => (String.mk (natChars e.1), Json.str (String.mk [e.2]))
  | _ => []

/-- JavaScript object-literal spread merge `{ ...cur, ...upd }` on field
lists: keys already present keep their position and take the updated
value, fresh keys are appended in order. -/
def spreadMerge (cur upd : List (String × Json)) : List (String × Json) :=
  (cur.map fun e =>
    match upd.lookup e.1 with
    | some w => (e.1, w)
    | none => e) ++
  upd.filter fun e => (cur.lookup e.1).isNone

/-- A filesystem path, as its list of segments. -/
abbrev FsPath := List String

/-- Filesystem state: known directories and a file map in which the first
matching entry wins (newer entries are consed in front). -/
structure FS where
  dirs : List FsPath
  files : List (FsPath × String)
deriving DecidableEq

/-- Content of a file, taking the newest entry for the path. -/
def FS.readFile (fs : FS) (p : FsPath) : Option String :=
  (fs.files.find? fun e => e.1 = p).map (·.2)

/-- fs-extra `existsSync`: true for a known directory or file. -/
def FS.existsSync (fs : FS) (p : FsPath) : Bool :=
  fs.dirs.contains p || fs.files.any fun e => e.1 = p

/-- fs-extra `ensureDirSync`. -/
def FS.ensureDir (fs : FS) (p : FsPath) : FS :=
  { fs with dirs := p :: fs.dirs }

/-- Remap a path below `src` to the corresponding path below `dst`. -/
def remapUnder (src dst p : FsPath) : Option FsPath :=
  if src.isPrefixOf p then some (dst ++ p.drop src.length) else none

/-- fs-extra `copySync(src, dst, { overwrite: true })`: the tree under
`src` is mirrored below `dst`, copied entries shadowing same-named
existing ones; everything else is untouched. -/
def FS.copyTree (fs : FS) (src dst : FsPath) : FS :=
  { dirs := fs.dirs.filterMap (remapUnder src dst) ++ fs.dirs
    files := (fs.files.filterMap fun e =>
        match remapUnder src dst e.1 with
        | some q => some (q, e.2)
        | none => none) ++ fs.files }

namespace Utils

/-- `getPnpmVersion` from `src/utils/index.ts`: trimmed probe output on
success, the fixed fallback `"9.15.4"` (with a warning) on any failure. -/
def getPnpmVersion (r : CmdResult) : String :=
  match r with
  | .ok out => jsTrim out
  | .err => "9.15.4"

/-- `fileExists` from `src/utils/index.ts`. -/
def fileExists (fs : FS) (p : FsPath) : Bool :=
  fs.existsSync p

/-- `writeFile` from `src/utils/index.ts`: create parent directories,
write the content with leading/trailing whitespace trimmed. -/
def writeFile (fs : FS) (p : FsPath) (content : String) : FS :=
  { dirs := p.dropLast :: fs.dirs
    files := (p, jsTrim content) :: fs.files }

/-- `writeJsonFile`: serialize with two-space indentation, then
`writeFile`. -/
def writeJsonFile (fs : FS) (p : FsPath) (data : Json) : FS :=
  writeFile fs p (stringify2 data)

/-- `readJsonFile`: throws on a missing path, otherwise `JSON.parse` of
the file content (a directory at the path or unparsable content also
throws, as `readFileSync` / `JSON.parse` would). -/
def readJsonFile (fs : FS) (p : FsPath) : Except String Json :=
  if ¬ fs.existsSync p then .error "File not found"
  else
    match fs.readFile p with
    | some content =>
      match parseJson content with
      | some v => .ok v
      | none => .error "JSON.parse: unexpected token"
    | none => .error "EISDIR: illegal operation on a directory"

/-- `updateJsonFile`: read current content (missing file counts as `{}`),
shallow-merge the new data over it, write the result back. -/
def updateJsonFile (fs : FS) (p : FsPath) (newData : Json) :
    Except String FS := do
  let currentData ←
    if fileExists fs p then readJsonFile fs p else pure (Json.obj [])
  let merged := Json.obj
    (spreadMerge (spreadFields currentData) (spreadFields newData))
  pure (writeJsonFile fs p merged)

/-- `copyCliPackageTemplate` from `src/utils/index.ts`: logs the resolved
source and target, skips with an error log when the template directory is
missing, otherwise ensures the target directory exists and copies the
template tree onto it.  Returns the log lines and the resulting
filesystem. -/
def copyCliPackageTemplate (templateType packageName : String)
    (monorepoRoot : FsPath) (repo : String) (cliRoot : FsPath) (fs : FS) :
    List String × FS :=
  let templateDir := cliRoot ++ ["templates", templateType]
  let targetDir := monorepoRoot ++ [repo, packageName]
  let logs := ["📂 Template Source (CLI Program)",
               "📂 Target Destination (Monorepo)"]
  if ¬ fs.existsSync templateDir then
    (logs ++ ["❌ Template directory not found"], fs)
  else
    (logs ++ ["✅ CLI package created"],
     (fs.ensureDir targetDir).copyTree templateDir targetDir)

end Utils

/-- Observable actions of the `init` / `app` orchestrators. -/
inductive Ev where
  | mkDir (p : FsPath)
  | write (p : FsPath) (content : String)
  | exec (cmd : String) (cwd : FsPath)
  | prompt
deriving DecidableEq

/-- Content of file `p` after a trace ran (the last write wins). -/
def fileAt (t : List Ev) (p : FsPath) : Option String :=
  t.foldl (fun acc e =>
    match e with
    | .write q c => if q = p then some c else acc
    | _ => acc) none

/-- Parse the JSON file at `p` after a trace ran. -/
def readJsonAt (t : List Ev) (p : FsPath) : Option Json :=
  (fileAt t p).bind parseJson

namespace Index

/-- `getPnpmVersion` from `src/index.ts`: trimmed probe output on
success, the fixed fallback `"9.7.0"` (with a warning) on any failure. -/
def getPnpmVersion (r : CmdResult) : String :=
  match r with
  | .ok out => jsTrim out
  | .err => "9.7.0"

/-- The default scripts of `createPackage`'s manifest. -/
def defaultScripts : List (String × Json) :=
  [("build", .str "tsup --clean"),
   ("check-types", .str "tsc --noEmit"),
   ("dev", .str "tsup --watch")]

/-- The manifest `createPackage` writes (`options?.scripts` spread over
the defaults). -/
def packageJsonOf (packageName : String) (scripts : List (String × Json)) :
    Json :=
  .obj [("name", .str ("@repo/" ++ packageName)),
        ("private", .bool true),
        ("type", .str "module"),
        ("exports", .obj [(".", .obj [("types", .str "./src/index.ts"),
                                      ("default", .str "./dist/index.js")])]),
        ("scripts", .obj (spreadMerge defaultScripts scripts))]

/-- The `tsconfig.json` `createPackage` writes. -/
def packageTsConfig : Json :=
  .obj [("extends", .str "@repo/typescript-config/base.json"),
        ("compilerOptions", .obj [("outDir", .str "./dist")]),
        ("include", .arr [.str "src/**/*"]),
        ("exclude", .arr [.str "node_modules"])]

/-- The `tsup.config.ts` template `createPackage` writes. -/
def packageTsupConfig : String :=
  "\nimport \x7b defineConfig \x7d from \"tsup\";\n\nexport default defineConfig(\x7b\n  entry: [\"src/index.ts\"],\n  format: [\"esm\"],\n  splitting: false,\n  sourcemap: true,\n  clean: true,\n\x7d);\n"

/-- `createPackage` from `src/index.ts`, as the trace of its filesystem
and subprocess actions; `base` is the process working directory (the
monorepo root, after `init` chdir'd into it). -/
def createPackage (base : FsPath) (packageName : String)
    (files : List (List String × String)) (scripts : List (String × Json)) :
    List Ev :=
  let packageDir := base ++ ["packages", packageName]
  [.mkDir packageDir,
   .mkDir (packageDir ++ ["src"]),
   .write (packageDir ++ ["package.json"])
     (stringify2 (packageJsonOf packageName scripts)),
   .write (packageDir ++ ["tsconfig.json"]) (stringify2 packageTsConfig),
   .write (packageDir ++ ["tsup.config.ts"]) packageTsupConfig] ++
  (files.foldr (fun f acc =>
    Ev.mkDir (packageDir ++ f.1).dropLast ::
    Ev.write (packageDir ++ f.1) f.2 :: acc) []) ++
  [.exec "pnpm add -D tsup typescript @repo/typescript-config@workspace:*"
    packageDir]

/-- The workspace root `package.json` of `initializeMonorepo`. -/
def rootPackageJson (appName pnpmVersion : String) : Json :=
  .obj [("name", .str appName),
        ("private", .bool true),
        ("packageManager", .str ("pnpm@" ++ pnpmVersion)),
        ("scripts", .obj [("build", .str "turbo run build"),
                          ("dev", .str "turbo run dev"),
                          ("lint", .str "turbo run lint"),
                          ("check-types", .str "turbo run check-types"),
                          ("test", .str "turbo run test")]),
        ("devDependencies", .obj [("turbo", .str "latest")])]

/-- The `turbo.json` task-runner configuration of `initializeMonorepo`. -/
def turboConfig : Json :=
  .obj [("$schema", .str "https://turbo.build/schema.json"),
        ("ui", .str "tui"),
        ("tasks", .obj
          [("build", .obj
             [("dependsOn", .arr [.str "^build"]),
              ("inputs", .arr [.str "$TURBO_DEFAULT$", .str ".env*"]),
              ("outputs", .arr [.str ".next/**", .str "!.next/cache/**",
                                .str "dist/**"])]),
           ("check-types", .obj [("dependsOn", .arr [.str "^check-types"])]),
           ("dev", .obj [("cache", .bool false), ("persistent", .bool true)]),
           ("test", .obj [("cache", .bool false),
                          ("persistent", .bool true)])])]

/-- `packages/typescript-config/package.json`. -/
def tsConfigPackageJson : Json :=
  .obj [("name", .str "@repo/typescript-config"),
        ("version", .str "1.0.0"),
        ("private", .bool true),
        ("license", .str "MIT"),
        ("publishConfig", .obj [("access", .str "public")])]

/-- `packages/typescript-config/base.json`. -/
def tsConfigBase : Json :=
  .obj [("$schema", .str "https://json.schemastore.org/tsconfig"),
        ("extends", .str "@tsconfig/node20/tsconfig.json"),
        ("compilerOptions", .obj [("module", .str "ESNext"),
                                  ("moduleResolution", .str "Bundler")])]

/-- The workspace name with every hyphen replaced by an underscore
(the `appName.replace` call feeding the database name). -/
def underscored (s : String) : String :=
  String.mk (s.data.map fun c => if c = '-' then '_' else c)

/-- The docker-compose template, with the workspace name substituted into
the database name. -/
def dockerComposeConfig (appName : String) : String :=
  "\nservices:\n  postgres:\n    image: postgres:16\n    environment:\n      POSTGRES_USER: postgres\n      POSTGRES_PASSWORD: postgres\n      POSTGRES_DB: " ++
  underscored appName ++
  "_dev\n    ports:\n      - \"5432:5432\"\n    volumes:\n      - /var/lib/postgresql/data\n\n  redis:\n    image: redis:6.2-alpine\n    ports:\n      - \"6379:6379\"\n"

/-- `packages/docker-dev/package.json`. -/
def dockerDevPackageJson : Json :=
  .obj [("name", .str "@repo/docker-dev"),
        ("private", .bool true),
        ("scripts", .obj
          [("dev", .str "docker compose up"),
           ("db:reset",
            .str "docker compose rm --force --stop postgres && docker compose up -d")]),
        ("devDependencies", .obj [("typescript", .str "^5.5.4")])]

/-- The `.gitignore` template (written trimmed). -/
def gitignoreContent : String :=
  "\n# Dependencies\nnode_modules\n\n# Builds\n.next/\ndist/\n\n# Misc\n.DS_Store\n*.pem\n\n# Debug\nnpm-debug.log*\nyarn-debug.log*\nyarn-error.log*\n\n# Local env files\n.env*.local\n\n# Turbo\n.turbo\n"

/-- `packages/db/prisma/schema.prisma` file content. -/
def dbPrismaSchema : String :=
  "\n// This is your Prisma schema file,\n// learn more about it in the docs: https://pris.ly/d/prisma-schema\n\ngenerator client \x7b\n  provider = \"prisma-client-js\"\n\x7d\n\ndatasource db \x7b\n  provider = \"postgresql\"\n  url      = env(\"DATABASE_URL\")\n\x7d\n\nmodel Post \x7b\n  id        String   @id @db.VarChar(12)\n  userId    String   @db.VarChar(12)\n  user      User     @relation(fields: [userId], references: [id])\n  content   String   @db.VarChar(240)\n  createdAt DateTime @default(now()) @map(\"created_at\")\n  updatedAt DateTime @default(now()) @updatedAt @map(\"updated_at\")\n\n  @@map(\"posts\")\n\x7d\n\nmodel User \x7b\n  id        String   @id @db.VarChar(12)\n  username  String   @unique @db.VarChar(32)\n  name      String   @db.VarChar(32)\n  createdAt DateTime @default(now()) @map(\"created_at\")\n  updatedAt DateTime @default(now()) @updatedAt @map(\"updated_at\")\n\n  posts Post[]\n\n  @@map(\"users\")\n\x7d\n"

/-- `packages/db/src/util.ts` file content. -/
def dbUtilTs : String :=
  "\nimport \x7b customAlphabet \x7d from \"nanoid\";\n\nexport const genId = customAlphabet(\n  \"0123456789ABCDEFGHIJKLMNOPQRSTUVWXYZabcdefghijklmnopqrstuvwxyz\",\n  12\n);\n"

/-- `packages/db/src/index.ts` file content. -/
def dbIndexTs : String :=
  "\nexport \x7b Prisma, PrismaClient \x7d from \"@prisma/client\";\nexport type \x7b Post as PostEntity, User as UserEntity \x7d from \"@prisma/client\";\nexport \x7b db \x7d from \"./db\";\nexport \x7b genId \x7d from \"./util\";\n"

/-- `packages/db/src/db.ts` file content. -/
def dbDbTs : String :=
  "\nimport \x7b PrismaClient \x7d from \"@prisma/client\";\n\ndeclare global \x7b\n  var prisma: PrismaClient | undefined;\n\x7d\n\nlet db: PrismaClient;\n\nconst isServer =\n  typeof process !== \"undefined\" && process.versions && process.versions.node;\nif (isServer) \x7b\n  if (process.env.NODE_ENV === \"production\") \x7b\n    db = new PrismaClient();\n  \x7d else \x7b\n    if (!global.prisma) \x7b\n      global.prisma = new PrismaClient(\x7b\n        log: [\"query\", \"info\", \"warn\", \"error\"],\n      \x7d);\n    \x7d\n    db = global.prisma;\n  \x7d\n\x7d\n\nexport \x7b db \x7d;\n"

/-- The file map passed to `createPackage "db"`. -/
def dbFiles : List (List String × String) :=
  [(["prisma", "schema.prisma"], dbPrismaSchema),
   (["src", "util.ts"], dbUtilTs),
   (["src", "index.ts"], dbIndexTs),
   (["src", "db.ts"], dbDbTs)]

/-- The scripts override passed to `createPackage "db"`. -/
def dbScriptsOverride : List (String × Json) :=
  [("build", .str "pnpm build:prisma && tsup --clean"),
   ("build:prisma", .str "prisma generate"),
   ("check-types", .str "tsc --noEmit"),
   ("dev", .str "tsup --watch"),
   ("migrate", .str "prisma migrate"),
   ("push", .str "prisma db push")]

/-- `packages/queue/src/index.ts` file content. -/
def queueIndexTs : String :=
  "\nimport \x7b Queue, QueueEvents \x7d from \"bullmq\";\nimport Redis from \"ioredis\";\n\nconst REDIS_URL = process.env.REDIS_URL || \"redis://localhost:6379\";\nexport const redis = new Redis(REDIS_URL, \x7b maxRetriesPerRequest: null \x7d);\n\nexport const QUEUE_NAME = \"queue\";\nexport const queue = new Queue(QUEUE_NAME, \x7b connection: redis \x7d);\n\nexport enum JobType \x7b\n  GeneratePosts = \"generate-posts\",\n\x7d\n\nexport type JobData = \x7b\n  [JobType.GeneratePosts]: \x7b count: number \x7d;\n\x7d;\n\nexport async function enqueue<T extends JobType>(type: T, data: JobData[T]) \x7b\n  return queue.add(type, data);\n\x7d\n\nconst queueEvents = new QueueEvents(QUEUE_NAME);\nexport async function enqueueAndWait<T extends JobType>(\n  type: T,\n  data: JobData[T]\n) \x7b\n  const job = await enqueue(type, data);\n  await job.waitUntilFinished(queueEvents);\n  return job;\n\x7d\n"

/-- The file map passed to `createPackage "queue"`. -/
def queueFiles : List (List String × String) :=
  [(["src", "index.ts"], queueIndexTs)]

/-- Full realization of the data-access (db) package unit:
`createPackage "db" …` followed by its extra dependency installs
(`src/index.ts` lines 266-366). -/
def dbUnitTrace (base : FsPath) : List Ev :=
  createPackage base "db" dbFiles dbScriptsOverride ++
  [.exec "pnpm add @prisma/client nanoid" (base ++ ["packages", "db"]),
   .exec "pnpm add -D prisma" (base ++ ["packages", "db"])]

/-- Full realization of the task-queue (queue) package unit:
`createPackage "queue" …` plus its dependency install (lines 368-407). -/
def queueUnitTrace (base : FsPath) : List Ev :=
  createPackage base "queue" queueFiles [] ++
  [.exec "pnpm add bullmq ioredis" (base ++ ["packages", "queue"])]

/-- Steps of `initializeMonorepo` before the two package units: root
directory, workspace config, base manifest, workspace install, task
config, support packages.  `pnpm` is the outcome of the `pnpm --version`
probe; `fmt` is the external prettier formatter applied to the serialized
`turbo.json`.  Since the source chdirs into the workspace root right
after creating it, every later relative path is prefixed with the
workspace name. -/
def initPreludeTrace (appName : String) (pnpm : CmdResult)
    (fmt : String → String) : List Ev :=
  let base : FsPath := [appName]
  [.mkDir base,
   .write (base ++ ["pnpm-workspace.yaml"])
     "packages:\n  - \"apps/*\"\n  - \"packages/*\"\n",
   .mkDir (base ++ ["apps"]),
   .mkDir (base ++ ["packages"]),
   .write (base ++ ["package.json"])
     (stringify2 (rootPackageJson appName (getPnpmVersion pnpm))),
   .exec "pnpm add -w -D @types/node" base,
   .write (base ++ ["turbo.json"]) (fmt (stringifyC turboConfig)),
   .mkDir (base ++ ["packages", "typescript-config"]),
   .write (base ++ ["packages", "typescript-config", "package.json"])
     (stringify2 tsConfigPackageJson),
   .exec "pnpm add -D @tsconfig/node20"
     (base ++ ["packages", "typescript-config"]),
   .write (base ++ ["packages", "typescript-config", "base.json"])
     (stringify2 tsConfigBase),
   .mkDir (base ++ ["packages", "docker-dev"]),
   .write (base ++ ["packages", "docker-dev", "compose.yml"])
     (dockerComposeConfig appName),
   .write (base ++ ["packages", "docker-dev", "package.json"])
     (stringify2 dockerDevPackageJson),
   .write (base ++ [".gitignore"]) (jsTrim gitignoreContent),
   .exec "pnpm install" base]

/-- `initializeMonorepo` (the `init <name>` command), as its event trace:
the workspace prelude (root directory, workspace config, base manifest,
workspace install, task config, support packages), then the full
data-access unit, then the full task-queue unit, in source order. -/
def initializeMonorepo (appName : String) (pnpm : CmdResult)
    (fmt : String → String) : List Ev :=
  initPreludeTrace appName pnpm fmt ++
  dbUnitTrace [appName] ++
  queueUnitTrace [appName]

/-- The `package.json` of a minimal Node.js app. -/
def appNodePackageJson (name : String) : Json :=
  .obj [("name", .str ("@repo/" ++ name)),
        ("private", .bool true),
        ("type", .str "module"),
        ("scripts", .obj
          [("build", .str "tsup --clean"),
           ("check-types", .str "tsc --noEmit"),
           ("dev", .str "tsup --watch --onSuccess 'pnpm start'"),
           ("start", .str "node dist/index.js")])]

/-- The `tsup.config.ts` written for a minimal Node.js app. -/
def appTsupConfig : String :=
  "\nimport \x7b defineConfig \x7d from \"tsup\";\n\nexport default defineConfig(\x7b\n  entry: [\"src/index.ts\"],\n  format: [\"esm\"],\n  splitting: false,\n  sourcemap: true,\n\x7d);\n"

/-- The `tsconfig.json` written for a minimal Node.js app. -/
def appNodeTsConfig : Json :=
  .obj [("extends", .str "@repo/typescript-config/base.json")]

/-- The fixed greeting stub written to `src/index.ts` of a Node.js app. -/
def greetingStatement : String :=
  "console.log(\"Hello, World!\");"

/-- `initializeApp` (the `app <name>` command body), as its event trace.
`promptChoice` is what the interactive variant prompt would return; it is
consulted only when no flag preselected a type. -/
def initializeApp (name : String) (type? : Option String)
    (promptChoice : String) : List Ev :=
  let pEvs : List Ev := match type? with | some _ => [] | none => [.prompt]
  let t : String := match type? with | some ty => ty | none => promptChoice
  let appDir : FsPath := ["apps", name]
  pEvs ++ [.mkDir appDir] ++
  (if t = "next" then
    [.exec ("npx create-next-app@latest apps/" ++ name ++
       " --typescript --eslint --use-pnpm") [],
     .exec "pnpm add @repo/db@workspace:*" appDir]
   else if t = "node" then
    [.write (appDir ++ ["package.json"]) (stringify2 (appNodePackageJson name)),
     .write (appDir ++ ["tsup.config.ts"]) appTsupConfig,
     .write (appDir ++ ["tsconfig.json"]) (stringify2 appNodeTsConfig),
     .mkDir (appDir ++ ["src"]),
     .write (appDir ++ ["src", "index.ts"]) greetingStatement,
     .exec "pnpm add @repo/typescript-config@workspace:*" appDir,
     .exec "pnpm add -D tsup typescript" appDir]
   else [])

/-- Flag-to-variant resolution of the `app` command action
(`options.next ? "next" : options.node ? "node" : undefined`). -/
def resolveAppType (next node : Bool) : Option String :=
  if next then some "next" else if node then some "node" else none

end Index

/-! ## Character and digit lemmas -/

theorem lit_null : lit "null" = 'n' :: 'u' :: 'l' :: 'l' :: [] := rfl

theorem lit_true : lit "true" = 't' :: 'r' :: 'u' :: 'e' :: [] := rfl

theorem lit_false : lit "false" = 'f' :: 'a' :: 'l' :: 's' :: 'e' :: [] := rfl

theorem ne_of_isDigit_of_not {c : Char} (h : c.isDigit = true) (d : Char)
    (hd : d.isDigit = false) : c ≠ d := by
  intro e
  subst e
  rw [h] at hd
  exact Bool.noConfusion hd

theorem isWs_eq_false_of_isDigit {c : Char} (h : c.isDigit = true) :
    isWs c = false := by
  have h1 : c ≠ ' ' := ne_of_isDigit_of_not h ' ' (by decide)
  have h2 : c ≠ '\n' := ne_of_isDigit_of_not h '\n' (by decide)
  have h3 : c ≠ '\r' := ne_of_isDigit_of_not h '\r' (by decide)
  have h4 : c ≠ '\t' := ne_of_isDigit_of_not h '\t' (by decide)
  simp [isWs, h1, h2, h3, h4]

theorem digitChar_isDigit (k : Nat) : (digitChar k).isDigit = true := by
  have hm : k % 10 < 10 := Nat.mod_lt _ (by omega)
  unfold digitChar
  set m := k % 10 with hdef
  interval_cases m <;> decide

theorem digitChar_toNat (k : Nat) : (digitChar k).toNat = 48 + k % 10 := by
  have hm : k % 10 < 10 := Nat.mod_lt _ (by omega)
  unfold digitChar
  set m := k % 10 with hdef
  interval_cases m <;> decide

theorem parseHex_hexChar {k : Nat} (h : k < 16) :
    parseHex (hexChar k) = some k := by
  unfold hexChar
  interval_cases k <;> decide

/-! ## Whitespace-skipping lemmas -/

theorem skipWs_nil : skipWs [] = [] := rfl

theorem skipWs_cons_false {c : Char} (h : isWs c = false) (t : List Char) :
    skipWs (c :: t) = c :: t := by
  simp [skipWs, List.dropWhile_cons, h]

theorem skipWs_cons_true {c : Char} (h : isWs c = true) (t : List Char) :
    skipWs (c :: t) = skipWs t := by
  simp [skipWs, List.dropWhile_cons, h]

theorem skipWs_ws_app {a : List Char} (b : List Char)
    (h : ∀ c ∈ a, isWs c = true) : skipWs (a ++ b) = skipWs b := by
  induction a with
  | nil => simp
  | cons c t ih =>
    rw [List.cons_append, skipWs_cons_true (h c (by simp))]
    exact ih fun x hx => h x (by simp [hx])

theorem nlIndent_ws (p : Bool) (d : Nat) :
    ∀ c ∈ nlIndent p d, isWs c = true := by
  intro c hc
  unfold nlIndent at hc
  split at hc
  · rcases List.mem_cons.mp hc with h | h
    · subst h; decide
    · have := List.eq_of_mem_replicate h
      subst this; decide
  · simp at hc

theorem skipWs_nlIndent_app (p : Bool) (d : Nat) (b : List Char) :
    skipWs (nlIndent p d ++ b) = skipWs b :=
  skipWs_ws_app b (nlIndent_ws p d)

/-! ## Decimal digit run lemmas -/

/-- Whether the input does not begin with a decimal digit (so a digit run
ends right before it). -/
def headNotDigit : List Char → Bool
  | [] => true
  | c :: _ => !c.isDigit

theorem readDigits_stop {rest : List Char} (a : Nat)
    (h : headNotDigit rest = true) : readDigits a rest = (a, rest) := by
  cases rest with
  | nil => rfl
  | cons c t =>
    have : c.isDigit = false := by
      simpa [headNotDigit] using h
    simp [readDigits, this]

theorem readDigits_natChars (n : Nat) :
    ∀ (a : Nat) (rest : List Char),
      readDigits a (natChars n ++ rest) =
        readDigits (a * 10 ^ (natChars n).length + n) rest := by
  induction n using Nat.strong_induction_on with
  | _ n ih =>
    intro a rest
    rw [natChars]
    split
    · next h =>
      have hd : (digitChar n).isDigit = true := digitChar_isDigit n
      have hv : (digitChar n).toNat = 48 + n := by
        rw [digitChar_toNat, Nat.mod_eq_of_lt h]
      simp only [List.singleton_append, readDigits, hd, if_true, hv,
        List.length_singleton, pow_one]
      congr 1
      omega
    · next h =>
      have hlt : n / 10 < n := Nat.div_lt_self (by omega) (by omega)
      have hd : (digitChar (n % 10)).isDigit = true := digitChar_isDigit (n % 10)
      have hv : (digitChar (n % 10)).toNat = 48 + n % 10 := by
        rw [digitChar_toNat]; omega
      rw [List.append_assoc, List.singleton_append,
        ih (n / 10) hlt a (digitChar (n % 10) :: rest)]
      simp only [readDigits, hd, if_true, hv, List.length_append,
        List.length_singleton]
      congr 1
      rw [pow_succ, ← mul_assoc]
      omega

theorem natChars_head (n : Nat) :
    ∃ c t, natChars n = c :: t ∧ c.isDigit = true := by
  induction n using Nat.strong_induction_on with
  | _ n ih =>
    rw [natChars]
    split
    · exact ⟨digitChar n, [], rfl, digitChar_isDigit n⟩
    · next h =>
      obtain ⟨c, t, he, hd⟩ := ih (n / 10) (Nat.div_lt_self (by omega) (by omega))
      exact ⟨c, t ++ [digitChar (n % 10)], by rw [he]; rfl, hd⟩

theorem natChars_last (n : Nat) :
    ∃ t c, natChars n = t ++ [c] ∧ c.isDigit = true := by
  rw [natChars]
  split
  · exact ⟨[], digitChar n, rfl, digitChar_isDigit n⟩
  · exact ⟨natChars (n / 10), digitChar (n % 10), rfl, digitChar_isDigit _⟩

/-! ## String-literal round trip -/

theorem parseStringBody_escString (s : List Char) :
    ∀ rest : List Char,
      parseStringBody (escString s ++ '"' :: rest) = some (s, rest) := by
  induction s with
  | nil =>
    intro rest
    simp only [escString, List.nil_append]
    rw [parseStringBody.eq_def]
    simp
  | cons c cs ih =>
    intro rest
    rw [escString, List.append_assoc]
    by_cases h1 : c = '"'
    · subst h1
      rw [show escChar '"' = ['\\', '"'] from rfl]
      rw [parseStringBody.eq_def]
      simp [unescape, ih]
    · by_cases h2 : c = '\\'
      · subst h2
        rw [show escChar '\\' = ['\\', '\\'] from rfl]
        rw [parseStringBody.eq_def]
        simp [unescape, ih]
      · by_cases h3 : c = '\x08'
        · subst h3
          rw [show escChar '\x08' = ['\\', 'b'] from rfl]
          rw [parseStringBody.eq_def]
          simp [unescape, ih]
        · by_cases h4 : c = '\t'
          · subst h4
            rw [show escChar '\t' = ['\\', 't'] from rfl]
            rw [parseStringBody.eq_def]
            simp [unescape, ih]
          · by_cases h5 : c = '\n'
            · subst h5
              rw [show escChar '\n' = ['\\', 'n'] from rfl]
              rw [parseStringBody.eq_def]
              simp [unescape, ih]
            · by_cases h6 : c = '\x0c'
              · subst h6
                rw [show escChar '\x0c' = ['\\', 'f'] from rfl]
                rw [parseStringBody.eq_def]
                simp [unescape, ih]
              · by_cases h7 : c = '\r'
                · subst h7
                  rw [show escChar '\r' = ['\\', 'r'] from rfl]
                  rw [parseStringBody.eq_def]
                  simp [unescape, ih]
                · by_cases h8 : c.toNat < 32
                  · rw [escChar, if_neg h1, if_neg h2, if_neg h3, if_neg h4,
                      if_neg h5, if_neg h6, if_neg h7, if_pos h8]
                    have hx1 : parseHex (hexChar (c.toNat / 16)) =
                        some (c.toNat / 16) := parseHex_hexChar (by omega)
                    have hx2 : parseHex (hexChar (c.toNat % 16)) =
                        some (c.toNat % 16) := parseHex_hexChar (by omega)
                    have hx0 : parseHex '0' = some 0 := by decide
                    have hchar : Char.ofNat (c.toNat / 16 * 16 +
                        c.toNat % 16) = c := by
                      have hval : c.toNat / 16 * 16 + c.toNat % 16 =
                          c.toNat := by omega
                      rw [hval, Char.ofNat_toNat]
                    rw [parseStringBody.eq_def]
                    simp [hx0, hx1, hx2, ih, hchar]
                  · rw [escChar, if_neg h1, if_neg h2, if_neg h3, if_neg h4,
                      if_neg h5, if_neg h6, if_neg h7, if_neg h8]
                    rw [List.singleton_append, parseStringBody.eq_def]
                    simp [h1, h2, ih]

/-! ## Shape of serializer output -/

theorem emit_head (p : Bool) (d : Nat) (v : Json) :
    ∃ c t, emit p d v = c :: t ∧ isWs c = false ∧
      c ≠ ']' ∧ c ≠ '}' ∧ c ≠ ',' ∧ c ≠ ':' := by
  cases v with
  | null => exact ⟨'n', _, rfl, by decide, by decide, by decide, by decide,
      by decide⟩
  | bool b =>
    cases b with
    | true => exact ⟨'t', _, rfl, by decide, by decide, by decide, by decide,
        by decide⟩
    | false => exact ⟨'f', _, rfl, by decide, by decide, by decide, by decide,
        by decide⟩
  | num n =>
    show ∃ c t, intChars n = c :: t ∧ _
    rw [intChars]
    by_cases hn : n < 0
    · rw [if_pos hn]
      exact ⟨'-', _, rfl, by decide, by decide, by decide, by decide,
        by decide⟩
    · rw [if_neg hn]
      obtain ⟨c, t, he, hd⟩ := natChars_head n.toNat
      exact ⟨c, t, he, isWs_eq_false_of_isDigit hd,
        ne_of_isDigit_of_not hd _ (by decide),
        ne_of_isDigit_of_not hd _ (by decide),
        ne_of_isDigit_of_not hd _ (by decide),
        ne_of_isDigit_of_not hd _ (by decide)⟩
  | str s => exact ⟨'"', _, rfl, by decide, by decide, by decide, by decide,
      by decide⟩
  | arr xs =>
    cases xs with
    | nil => exact ⟨'[', _, rfl, by decide, by decide, by decide, by decide,
        by decide⟩
    | cons x t => exact ⟨'[', _, rfl, by decide, by decide, by decide,
        by decide, by decide⟩
  | obj fs =>
    cases fs with
    | nil => exact ⟨'{', _, rfl, by decide, by decide, by decide, by decide,
        by decide⟩
    | cons f t => exact ⟨'{', _, rfl, by decide, by decide, by decide,
        by decide, by decide⟩

theorem emit_last (p : Bool) (d : Nat) (v : Json) :
    ∃ t c, emit p d v = t ++ [c] ∧ isWs c = false := by
  cases v with
  | null => exact ⟨['n', 'u', 'l'], 'l', rfl, by decide⟩
  | bool b =>
    cases b with
    | true => exact ⟨['t', 'r', 'u'], 'e', rfl, by decide⟩
    | false => exact ⟨['f', 'a', 'l', 's'], 'e', rfl, by decide⟩
  | num n =>
    show ∃ t c, intChars n = t ++ [c] ∧ _
    rw [intChars]
    by_cases hn : n < 0
    · rw [if_pos hn]
      obtain ⟨t, c, he, hd⟩ := natChars_last (-n).toNat
      exact ⟨'-' :: t, c, by rw [he]; rfl, isWs_eq_false_of_isDigit hd⟩
    · rw [if_neg hn]
      obtain ⟨t, c, he, hd⟩ := natChars_last n.toNat
      exact ⟨t, c, he, isWs_eq_false_of_isDigit hd⟩
  | str s =>
    exact ⟨'"' :: escString s.data, '"', by simp [emit, quoteString],
      by decide⟩
  | arr xs =>
    cases xs with
    | nil => exact ⟨['['], ']', rfl, by decide⟩
    | cons x t =>
      exact ⟨'[' :: (nlIndent p (d + 1) ++ emit p (d + 1) x ++
        emitArrTail p (d + 1) t ++ nlIndent p d), ']',
        by simp [emit], by decide⟩
  | obj fs =>
    cases fs with
    | nil => exact ⟨['{'], '}', rfl, by decide⟩
    | cons f t =>
      exact ⟨'{' :: (nlIndent p (d + 1) ++ emitField p (d + 1) f ++
        emitObjTail p (d + 1) t ++ nlIndent p d), '}',
        by simp [emit], by decide⟩

theorem skipWs_emit_app (p : Bool) (d : Nat) (v : Json) (rest : List Char) :
    skipWs (emit p d v ++ rest) = emit p d v ++ rest := by
  obtain ⟨c, t, he, hws, -, -, -, -⟩ := emit_head p d v
  rw [he, List.cons_append, skipWs_cons_false hws]

/-! ## Size bounds -/

theorem sizeJ_pos (v : Json) : 1 ≤ sizeJ v := by
  cases v <;> simp [sizeJ] <;> omega

theorem sizeL_pos (xs : List Json) : 1 ≤ sizeL xs := by
  cases xs <;> simp [sizeL] <;> omega

theorem sizeF_pos (fs : List (String × Json)) : 1 ≤ sizeF fs := by
  cases fs <;> simp [sizeF] <;> omega

theorem natChars_len_pos (n : Nat) : 1 ≤ (natChars n).length := by
  obtain ⟨c, t, he, -⟩ := natChars_head n
  rw [he]
  simp

theorem size_le_emit : ∀ N : Nat,
    (∀ v, sizeJ v ≤ N → ∀ p d, sizeJ v ≤ 2 * (emit p d v).length) ∧
    (∀ xs, sizeL xs ≤ N →
      ∀ p d, sizeL xs ≤ 2 * (emitArrTail p d xs).length + 1) ∧
    (∀ fs, sizeF fs ≤ N →
      ∀ p d, sizeF fs ≤ 2 * (emitObjTail p d fs).length + 1) := by
  intro N
  induction N using Nat.strong_induction_on with
  | _ N ih =>
    refine ⟨?_, ?_, ?_⟩
    · intro v hv p d
      cases v with
      | null => simp [sizeJ, emit, lit_null]
      | bool b => cases b <;> simp [sizeJ, emit, lit_true, lit_false]
      | num n =>
        have h1 : 1 ≤ (intChars n).length := by
          rw [intChars]
          split
          · simp
          · exact natChars_len_pos _
        show sizeJ (.num n) ≤ 2 * (intChars n).length
        simp only [sizeJ]
        omega
      | str s =>
        show sizeJ (.str s) ≤ 2 * (quoteString s).length
        simp [sizeJ, quoteString]
        omega
      | arr xs =>
        cases xs with
        | nil => simp [sizeJ, sizeL, emit]
        | cons x t =>
          have hp1 := sizeJ_pos x
          have hp2 := sizeL_pos t
          simp only [sizeJ, sizeL] at hv
          obtain ⟨ihV, ihL, -⟩ := ih (N - 1) (by omega)
          have hx := ihV x (by omega) p (d + 1)
          have ht := ihL t (by omega) p (d + 1)
          simp only [sizeJ, sizeL, emit, List.length_cons, List.length_append,
            List.length_singleton]
          omega
      | obj fs =>
        cases fs with
        | nil => simp [sizeJ, sizeF, emit]
        | cons f t =>
          obtain ⟨k, fv⟩ := f
          have hp1 := sizeJ_pos fv
          have hp2 := sizeF_pos t
          simp only [sizeJ, sizeF] at hv
          obtain ⟨ihV, -, ihF⟩ := ih (N - 1) (by omega)
          have hx := ihV fv (by omega) p (d + 1)
          have ht := ihF t (by omega) p (d + 1)
          simp only [sizeJ, sizeF, emit, emitField, quoteString,
            List.length_cons, List.length_append, List.length_singleton]
          omega
    · intro xs hxs p d
      cases xs with
      | nil => simp [sizeL, emitArrTail]
      | cons x t =>
        have hp1 := sizeJ_pos x
        have hp2 := sizeL_pos t
        simp only [sizeL] at hxs
        obtain ⟨ihV, ihL, -⟩ := ih (N - 1) (by omega)
        have hx := ihV x (by omega) p d
        have ht := ihL t (by omega) p d
        simp only [sizeL, emitArrTail, List.length_cons, List.length_append]
        omega
    · intro fs hfs p d
      cases fs with
      | nil => simp [sizeF, emitObjTail]
      | cons f t =>
        obtain ⟨k, fv⟩ := f
        have hp1 := sizeJ_pos fv
        have hp2 := sizeF_pos t
        simp only [sizeF] at hfs
        obtain ⟨ihV, -, ihF⟩ := ih (N - 1) (by omega)
        have hx := ihV fv (by omega) p d
        have ht := ihF t (by omega) p d
        simp only [sizeF, emitObjTail, emitField, quoteString,
          List.length_cons, List.length_append, List.length_singleton]
        omega


theorem parseVal_ws_app (m : Nat) {a : List Char} (b : List Char)
    (h : ∀ c ∈ a, isWs c = true) :
    parseVal (m + 1) (a ++ b) = parseVal (m + 1) b := by
  simp only [parseVal.eq_def, skipWs_ws_app b h]

theorem headNotDigit_arrTail (p : Bool) (d d2 : Nat) (xs : List Json)
    (rest : List Char) :
    headNotDigit (emitArrTail p d xs ++ nlIndent p d2 ++ ']' :: rest) =
      true := by
  cases xs with
  | nil => cases p <;> simp [emitArrTail, nlIndent, headNotDigit]
  | cons y ys => simp [emitArrTail, headNotDigit]

theorem headNotDigit_objTail (p : Bool) (d d2 : Nat)
    (fs : List (String × Json)) (rest : List Char) :
    headNotDigit (emitObjTail p d fs ++ nlIndent p d2 ++ '}' :: rest) =
      true := by
  cases fs with
  | nil => cases p <;> simp [emitObjTail, nlIndent, headNotDigit]
  | cons f fs2 => simp [emitObjTail, headNotDigit]

theorem spacer_ws (p : Bool) : ∀ c ∈ (if p then [' '] else []), isWs c = true := by
  cases p <;> simp <;> decide

theorem stringMk_data (s : String) : String.mk s.data = s := rfl

theorem parseMember_emit (m : Nat) (k : String) (fv : Json) (p : Bool)
    (d : Nat) (T : List Char) (hm : 1 ≤ m)
    (hval : parseVal m (emit p d fv ++ T) = some (fv, T)) :
    parseMember m (escString k.data ++ '"' :: ':' ::
      ((if p then [' '] else []) ++ (emit p d fv ++ T))) =
      some ((k, fv), T) := by
  obtain ⟨m, rfl⟩ : ∃ m2, m = m2 + 1 := ⟨m - 1, by omega⟩
  simp only [parseMember.eq_def, parseStringBody_escString,
    skipWs_cons_false (show isWs ':' = false by decide), Char.reduceEq, reduceIte]
  rw [parseVal_ws_app _ _ (spacer_ws p), hval]

theorem parse_emit_bundle : ∀ n : Nat,
    (∀ v (p : Bool) (d : Nat) rest, sizeJ v ≤ n → headNotDigit rest = true →
      parseVal n (emit p d v ++ rest) = some (v, rest)) ∧
    (∀ xs (p : Bool) (d d2 : Nat) rest, sizeL xs ≤ n →
      headNotDigit rest = true →
      parseArrTail n (emitArrTail p d xs ++ nlIndent p d2 ++ ']' :: rest) =
        some (xs, rest)) ∧
    (∀ fs (p : Bool) (d d2 : Nat) rest, sizeF fs ≤ n →
      headNotDigit rest = true →
      parseObjTail n (emitObjTail p d fs ++ nlIndent p d2 ++ '}' :: rest) =
        some (fs, rest)) := by
  intro n
  induction n using Nat.strong_induction_on with
  | _ n ih =>
    refine ⟨?_, ?_, ?_⟩
    · intro v p d rest hsz h
      have hpos := sizeJ_pos v
      obtain ⟨m, rfl⟩ : ∃ m, n = m + 1 := ⟨n - 1, by omega⟩
      cases v with
      | null =>
        rw [parseVal.eq_def]
        simp [emit, lit_null, skipWs_cons_false, isWs]
      | bool b =>
        rw [parseVal.eq_def]
        cases b <;> simp [emit, lit_true, lit_false, skipWs_cons_false, isWs]
      | num nn =>
        rw [parseVal.eq_def]
        have hread : ∀ kk : Nat, ∀ c cs, natChars kk = c :: cs →
            readDigits (c.toNat - 48) (cs ++ rest) = (kk, rest) := by
          intro kk c cs he
          have h0 := readDigits_natChars kk 0 rest
          rw [he] at h0
          have hd : c.isDigit = true := by
            obtain ⟨c2, t2, he2, hd2⟩ := natChars_head kk
            rw [he] at he2
            cases he2
            exact hd2
          rw [List.cons_append] at h0
          rw [readDigits, if_pos hd] at h0
          simpa [readDigits_stop _ h] using h0
        by_cases hn : nn < 0
        · have he : emit p d (.num nn) = '-' :: natChars (-nn).toNat := by
            simp [emit, intChars, hn]
          obtain ⟨c, cs, hnat, hdig⟩ := natChars_head (-nn).toNat
          rw [he, hnat]
          simp [skipWs_cons_false, isWs, hdig, hread _ _ _ hnat]
          omega
        · have he : emit p d (.num nn) = natChars nn.toNat := by
            simp [emit, intChars, hn]
          obtain ⟨c, cs, hnat, hdig⟩ := natChars_head nn.toNat
          rw [he, hnat]
          have hws : isWs c = false := isWs_eq_false_of_isDigit hdig
          have hd1 : c ≠ '[' := ne_of_isDigit_of_not hdig _ (by decide)
          have hd2 : c ≠ '{' := ne_of_isDigit_of_not hdig _ (by decide)
          have hd3 : c ≠ '"' := ne_of_isDigit_of_not hdig _ (by decide)
          have hd4 : c ≠ 'n' := ne_of_isDigit_of_not hdig _ (by decide)
          have hd5 : c ≠ 't' := ne_of_isDigit_of_not hdig _ (by decide)
          have hd6 : c ≠ 'f' := ne_of_isDigit_of_not hdig _ (by decide)
          have hd7 : c ≠ '-' := ne_of_isDigit_of_not hdig _ (by decide)
          simp [skipWs_cons_false, hws, hd1, hd2, hd3, hd4, hd5, hd6, hd7,
            hdig, hread _ _ _ hnat]
          omega
      | str s =>
        rw [parseVal.eq_def]
        have he : emit p d (.str s) ++ rest =
            '"' :: (escString s.data ++ '"' :: rest) := by
          simp [emit, quoteString]
        rw [he]
        simp [skipWs_cons_false, isWs, parseStringBody_escString]
      | arr xs =>
        cases xs with
        | nil =>
          simp only [sizeJ, sizeL] at hsz
          obtain ⟨m2, rfl⟩ : ∃ m2, m = m2 + 1 := ⟨m - 1, by omega⟩
          have he : emit p d (.arr []) ++ rest = '[' :: ']' :: rest := by
            simp [emit]
          rw [he]
          simp only [parseVal.eq_def,
            skipWs_cons_false (show isWs '[' = false by decide), Char.reduceEq, reduceIte]
          simp only [parseArr.eq_def,
            skipWs_cons_false (show isWs ']' = false by decide), Char.reduceEq, reduceIte]
        | cons x t =>
          have hpx := sizeJ_pos x
          have hpt := sizeL_pos t
          simp only [sizeJ, sizeL] at hsz
          obtain ⟨m2, rfl⟩ : ∃ m2, m = m2 + 1 := ⟨m - 1, by omega⟩
          have he : emit p d (.arr (x :: t)) ++ rest =
              '[' :: (nlIndent p (d + 1) ++ (emit p (d + 1) x ++
                (emitArrTail p (d + 1) t ++ nlIndent p d ++
                  ']' :: rest))) := by
            simp [emit]
          rw [he]
          simp only [parseVal.eq_def,
            skipWs_cons_false (show isWs '[' = false by decide), Char.reduceEq, reduceIte]
          simp only [parseArr.eq_def]
          rw [skipWs_nlIndent_app, skipWs_emit_app]
          obtain ⟨c, ct, hce, hcw, hc1, hc2, hc3, hc4⟩ := emit_head p (d + 1) x
          rw [hce, List.cons_append]
          simp only [if_neg hc1]
          rw [← List.cons_append, ← hce]
          have hT : headNotDigit (emitArrTail p (d + 1) t ++ nlIndent p d ++
              ']' :: rest) = true := headNotDigit_arrTail p (d + 1) d t rest
          have hx := (ih m2 (by omega)).1 x p (d + 1) _ (by omega) hT
          rw [hx]
          have ht := (ih m2 (by omega)).2.1 t p (d + 1) d rest (by omega) h
          simp only [ht]
      | obj fs =>
        cases fs with
        | nil =>
          simp only [sizeJ, sizeF] at hsz
          obtain ⟨m2, rfl⟩ : ∃ m2, m = m2 + 1 := ⟨m - 1, by omega⟩
          have he : emit p d (.obj []) ++ rest = '{' :: '}' :: rest := by
            simp [emit]
          rw [he]
          simp only [parseVal.eq_def,
            skipWs_cons_false (show isWs '{' = false by decide), Char.reduceEq, reduceIte]
          simp only [parseObj.eq_def,
            skipWs_cons_false (show isWs '}' = false by decide), Char.reduceEq, reduceIte]
        | cons f t =>
          obtain ⟨k, fv⟩ := f
          have hpx := sizeJ_pos fv
          have hpt := sizeF_pos t
          simp only [sizeJ, sizeF] at hsz
          obtain ⟨m2, rfl⟩ : ∃ m2, m = m2 + 1 := ⟨m - 1, by omega⟩
          have he : emit p d (.obj ((k, fv) :: t)) ++ rest =
              '{' :: (nlIndent p (d + 1) ++ ('"' :: (escString k.data ++
                '"' :: ':' :: ((if p then [' '] else []) ++
                  (emit p (d + 1) fv ++
                  (emitObjTail p (d + 1) t ++ nlIndent p d ++
                    '}' :: rest)))))) := by
            simp [emit, emitField, quoteString]
          rw [he]
          simp only [parseVal.eq_def,
            skipWs_cons_false (show isWs '{' = false by decide), Char.reduceEq, reduceIte]
          simp only [parseObj.eq_def]
          rw [skipWs_nlIndent_app,
            skipWs_cons_false (show isWs '"' = false by decide)]
          simp only [Char.reduceEq, reduceIte]
          have hT : headNotDigit (emitObjTail p (d + 1) t ++ nlIndent p d ++
              '}' :: rest) = true := headNotDigit_objTail p (d + 1) d t rest
          have hfv := (ih m2 (by omega)).1 fv p (d + 1) _ (by omega) hT
          rw [parseMember_emit m2 k fv p (d + 1) _ (by omega) hfv]
          have ht := (ih m2 (by omega)).2.2 t p (d + 1) d rest (by omega) h
          simp only [ht]
    · intro xs p d d2 rest hsz h
      have hpos := sizeL_pos xs
      obtain ⟨m, rfl⟩ : ∃ m, n = m + 1 := ⟨n - 1, by omega⟩
      cases xs with
      | nil =>
        simp only [emitArrTail, List.nil_append]
        rw [parseArrTail.eq_def]
        simp only [skipWs_nlIndent_app,
          skipWs_cons_false (show isWs ']' = false by decide), Char.reduceEq,
          reduceIte]
      | cons y ys =>
        have hpy := sizeJ_pos y
        have hpt := sizeL_pos ys
        simp only [sizeL] at hsz
        have he : emitArrTail p d (y :: ys) ++ nlIndent p d2 ++ ']' :: rest =
            ',' :: (nlIndent p d ++ (emit p d y ++
              (emitArrTail p d ys ++ nlIndent p d2 ++ ']' :: rest))) := by
          simp [emitArrTail]
        rw [he]
        rw [parseArrTail.eq_def]
        simp only [skipWs_cons_false (show isWs ',' = false by decide),
          Char.reduceEq, reduceIte]
        obtain ⟨m2, rfl⟩ : ∃ m2, m = m2 + 1 := ⟨m - 1, by omega⟩
        rw [parseVal_ws_app _ _ (nlIndent_ws p d)]
        have hT : headNotDigit (emitArrTail p d ys ++ nlIndent p d2 ++
            ']' :: rest) = true := headNotDigit_arrTail p d d2 ys rest
        have hy := (ih (m2 + 1) (by omega)).1 y p d _ (by omega) hT
        rw [hy]
        have ht := (ih (m2 + 1) (by omega)).2.1 ys p d d2 rest (by omega) h
        simp only [ht]
    · intro fs p d d2 rest hsz h
      have hpos := sizeF_pos fs
      obtain ⟨m, rfl⟩ : ∃ m, n = m + 1 := ⟨n - 1, by omega⟩
      cases fs with
      | nil =>
        simp only [emitObjTail, List.nil_append]
        rw [parseObjTail.eq_def]
        simp only [skipWs_nlIndent_app,
          skipWs_cons_false (show isWs '}' = false by decide), Char.reduceEq,
          reduceIte]
      | cons f t =>
        obtain ⟨k, fv⟩ := f
        have hpy := sizeJ_pos fv
        have hpt := sizeF_pos t
        simp only [sizeF] at hsz
        have he : emitObjTail p d ((k, fv) :: t) ++ nlIndent p d2 ++
            '}' :: rest =
            ',' :: (nlIndent p d ++ ('"' :: (escString k.data ++
              '"' :: ':' :: ((if p then [' '] else []) ++
                (emit p d fv ++ (emitObjTail p d t ++ nlIndent p d2 ++
                  '}' :: rest)))))) := by
          simp [emitObjTail, emitField, quoteString]
        rw [he]
        rw [parseObjTail.eq_def]
        simp only [skipWs_cons_false (show isWs ',' = false by decide),
          Char.reduceEq, reduceIte]
        rw [skipWs_nlIndent_app,
          skipWs_cons_false (show isWs '"' = false by decide)]
        simp only [Char.reduceEq, reduceIte]
        obtain ⟨m2, rfl⟩ : ∃ m2, m = m2 + 1 := ⟨m - 1, by omega⟩
        have hT : headNotDigit (emitObjTail p d t ++ nlIndent p d2 ++
            '}' :: rest) = true := headNotDigit_objTail p d d2 t rest
        have hfv := (ih (m2 + 1) (by omega)).1 fv p d _ (by omega) hT
        rw [parseMember_emit (m2 + 1) k fv p d _ (by omega) hfv]
        have ht := (ih (m2 + 1) (by omega)).2.2 t p d d2 rest (by omega) h
        simp only [ht]

/-! ## Round-trip corollaries -/

theorem parseJson_emit (p : Bool) (v : Json) :
    parseJson (String.mk (emit p 0 v)) = some v := by
  unfold parseJson
  have hdata : (String.mk (emit p 0 v)).data = emit p 0 v := rfl
  rw [hdata]
  have hsz : sizeJ v ≤ 2 * (emit p 0 v).length + 2 := by
    have := (size_le_emit (sizeJ v)).1 v le_rfl p 0
    omega
  have h := (parse_emit_bundle (2 * (emit p 0 v).length + 2)).1 v p 0 []
    hsz rfl
  rw [List.append_nil] at h
  rw [h]
  simp [skipWs]

theorem parseJson_stringify2 (v : Json) :
    parseJson (stringify2 v) = some v :=
  parseJson_emit true v

theorem parseJson_stringifyC (v : Json) :
    parseJson (stringifyC v) = some v :=
  parseJson_emit false v

theorem trimChars_emit (p : Bool) (v : Json) :
    trimChars (emit p 0 v) = emit p 0 v := by
  obtain ⟨c, t, hh, hw, -, -, -, -⟩ := emit_head p 0 v
  obtain ⟨t2, c2, hl, hw2⟩ := emit_last p 0 v
  unfold trimChars
  have h1 : (emit p 0 v).dropWhile isWs = emit p 0 v := by
    rw [hh]
    simp [List.dropWhile_cons, hw]
  rw [h1, hl, List.reverse_append]
  simp [List.dropWhile_cons, hw2]

theorem jsTrim_stringify2 (v : Json) :
    jsTrim (stringify2 v) = stringify2 v := by
  unfold jsTrim stringify2
  have hdata : (String.mk (emit true 0 v)).data = emit true 0 v := rfl
  rw [hdata, trimChars_emit]

/-- Key helper: reading back a JSON file just written returns the value,
despite the whitespace trim in `writeFile`. -/
theorem readJson_write (fs : FS) (pth : FsPath) (v : Json) :
    Utils.readJsonFile (Utils.writeJsonFile fs pth v) pth = .ok v := by
  simp [Utils.readJsonFile, Utils.writeJsonFile, Utils.writeFile,
    FS.existsSync, FS.readFile, jsTrim_stringify2, parseJson_stringify2]

/-! ## Helper lemmas about the filesystem operations -/

theorem existsSync_writeJson (fs : FS) (p : FsPath) (v : Json) :
    (Utils.writeJsonFile fs p v).existsSync p = true := by
  simp [Utils.writeJsonFile, Utils.writeFile, FS.existsSync]

theorem updateJson_absent (fs : FS) (p : FsPath) (nd : Json)
    (h : fs.existsSync p = false) :
    Utils.updateJsonFile fs p nd =
      .ok (Utils.writeJsonFile fs p
        (Json.obj (spreadMerge [] (spreadFields nd)))) := by
  simp only [Utils.updateJsonFile, Utils.fileExists, h, Bool.false_eq_true,
    if_false, bind_pure_comp, map_pure]
  rfl

theorem updateJson_present (fs : FS) (p : FsPath) (v nd : Json)
    (hex : fs.existsSync p = true)
    (hread : Utils.readJsonFile fs p = .ok v) :
    Utils.updateJsonFile fs p nd =
      .ok (Utils.writeJsonFile fs p
        (Json.obj (spreadMerge (spreadFields v) (spreadFields nd)))) := by
  simp [Utils.updateJsonFile, Utils.fileExists, hex, hread]

/-! ## Claim theorems -/

/-- C2: Round-trip law — for every JSON-serializable value `v`, filesystem
state and path `p`, `readJson` after `writeJson(p, v)` returns a value
deep-equal to `v`, even though the underlying `writeFile` trims leading
and trailing whitespace of the serialized text before writing. -/
theorem claim_C2 (fs : FS) (p : FsPath) (v : Json) :
    Utils.readJsonFile (Utils.writeJsonFile fs p v) p = .ok v :=
  readJson_write fs p v

/-- C5: `getPnpmVersion` in `src/utils/index.ts` never propagates an
error: on success it returns the command's trimmed standard output, and on
any failure it returns the literal fixed fallback version string. -/
theorem claim_C5 :
    (∀ out, Utils.getPnpmVersion (.ok out) = jsTrim out) ∧
    Utils.getPnpmVersion .err = "9.15.4" :=
  ⟨fun _ => rfl, rfl⟩

/-- C9 (counterexample): the two `getPnpmVersion` implementations are not
extensionally equal — they disagree on the failure outcome. -/
theorem claim_C9_counterexample :
    ¬ ∀ r : CmdResult, Index.getPnpmVersion r = Utils.getPnpmVersion r := by
  intro h
  have hc := h .err
  simp [Index.getPnpmVersion, Utils.getPnpmVersion] at hc

/-- C9 (amended): the two `getPnpmVersion` implementations agree on every
success outcome of the underlying version command, but on failure
`src/index.ts` returns the fallback `"9.7.0"` while `src/utils/index.ts`
returns the different fallback `"9.15.4"`. -/
theorem claim_C9_amended :
    (∀ out, Index.getPnpmVersion (.ok out) = Utils.getPnpmVersion (.ok out)) ∧
    Index.getPnpmVersion .err = "9.7.0" ∧
    Utils.getPnpmVersion .err = "9.15.4" ∧
    Index.getPnpmVersion .err ≠ Utils.getPnpmVersion .err :=
  ⟨fun _ => rfl, rfl, rfl, by decide⟩

/-- C10: when the `app` command gets both `--next` and `--node`, the
flag resolution picks the framework-delegated (`"next"`) variant, the
resulting run never invokes the interactive variant prompt, and the
external Next.js scaffolder is invoked. -/
theorem claim_C10 :
    Index.resolveAppType true true = some "next" ∧
    ∀ (name promptChoice : String),
      Ev.prompt ∉
        Index.initializeApp name (Index.resolveAppType true true)
          promptChoice ∧
      Ev.exec ("npx create-next-app@latest apps/" ++ name ++
          " --typescript --eslint --use-pnpm") [] ∈
        Index.initializeApp name (Index.resolveAppType true true)
          promptChoice := by
  refine ⟨rfl, fun name pc => ⟨?_, ?_⟩⟩
  · simp [Index.initializeApp, Index.resolveAppType]
  · simp [Index.initializeApp, Index.resolveAppType]

/-- C8: in every `init` run, the full realization of the data-access (db)
package unit — directory creation, manifest and file writes, and its
dependency installs — forms one contiguous block of the event trace that
is immediately followed by the contiguous block fully realizing the
task-queue (queue) unit; the two units are never interleaved and every db
step precedes every queue step. -/
theorem claim_C8 (appName : String) (pnpm : CmdResult)
    (fmt : String → String) :
    ∃ pre, Index.initializeMonorepo appName pnpm fmt =
      pre ++ (Index.dbUnitTrace [appName] ++
        Index.queueUnitTrace [appName]) :=
  ⟨Index.initPreludeTrace appName pnpm fmt,
    by simp [Index.initializeMonorepo, List.append_assoc]⟩

/-- C3: `copyCliPackageTemplate` with a missing template source directory
logs an error and returns without any filesystem mutation: the returned
state is exactly the input state. -/
theorem claim_C3 (templateType packageName : String) (monorepoRoot : FsPath)
    (repo : String) (cliRoot : FsPath) (fs : FS)
    (h : fs.existsSync (cliRoot ++ ["templates", templateType]) = false) :
    (Utils.copyCliPackageTemplate templateType packageName monorepoRoot repo
      cliRoot fs).2 = fs ∧
    "❌ Template directory not found" ∈
      (Utils.copyCliPackageTemplate templateType packageName monorepoRoot
        repo cliRoot fs).1 := by
  constructor <;> simp [Utils.copyCliPackageTemplate, h]

theorem claim_C3_witness :
    (FS.existsSync ⟨[], []⟩ (["cli"] ++ ["templates", "db"]) = false) ∧
    (Utils.copyCliPackageTemplate "db" "db" ["mono"] "packages" ["cli"]
      ⟨[], []⟩).2 = ⟨[], []⟩ ∧
    "❌ Template directory not found" ∈
      (Utils.copyCliPackageTemplate "db" "db" ["mono"] "packages" ["cli"]
        ⟨[], []⟩).1 := by
  refine ⟨rfl, ?_, ?_⟩
  · exact (claim_C3 "db" "db" ["mono"] "packages" ["cli"] ⟨[], []⟩ rfl).1
  · exact (claim_C3 "db" "db" ["mono"] "packages" ["cli"] ⟨[], []⟩ rfl).2

/-- C1: `updateJsonFile` performs a shallow merge.  Starting from any
state in which path `p` does not exist: updating with `{a:1}` then
`{b:2}` leaves `{a:1, b:2}` at `p`; a subsequent update with `{a:3}`
leaves `{a:3, b:2}`; and starting fresh, updating with `{a:{x:1}}` then
`{a:{y:2}}` leaves `{a:{y:2}}` — the nested object is fully replaced,
never deep-merged. -/
theorem claim_C1 (fs : FS) (p : FsPath) (h : fs.existsSync p = false) :
    ∃ fs1 fs2 fs3 gs1 gs2,
      Utils.updateJsonFile fs p (.obj [("a", .num 1)]) = .ok fs1 ∧
      Utils.updateJsonFile fs1 p (.obj [("b", .num 2)]) = .ok fs2 ∧
      Utils.readJsonFile fs2 p =
        .ok (.obj [("a", .num 1), ("b", .num 2)]) ∧
      Utils.updateJsonFile fs2 p (.obj [("a", .num 3)]) = .ok fs3 ∧
      Utils.readJsonFile fs3 p =
        .ok (.obj [("a", .num 3), ("b", .num 2)]) ∧
      Utils.updateJsonFile fs p (.obj [("a", .obj [("x", .num 1)])]) =
        .ok gs1 ∧
      Utils.updateJsonFile gs1 p (.obj [("a", .obj [("y", .num 2)])]) =
        .ok gs2 ∧
      Utils.readJsonFile gs2 p = .ok (.obj [("a", .obj [("y", .num 2)])]) := by
  refine ⟨Utils.writeJsonFile fs p (.obj [("a", .num 1)]),
    Utils.writeJsonFile (Utils.writeJsonFile fs p (.obj [("a", .num 1)])) p
      (.obj [("a", .num 1), ("b", .num 2)]),
    Utils.writeJsonFile (Utils.writeJsonFile
        (Utils.writeJsonFile fs p (.obj [("a", .num 1)])) p
        (.obj [("a", .num 1), ("b", .num 2)])) p
      (.obj [("a", .num 3), ("b", .num 2)]),
    Utils.writeJsonFile fs p (.obj [("a", .obj [("x", .num 1)])]),
    Utils.writeJsonFile
      (Utils.writeJsonFile fs p (.obj [("a", .obj [("x", .num 1)])])) p
      (.obj [("a", .obj [("y", .num 2)])]),
    ?_, ?_, ?_, ?_, ?_, ?_, ?_, ?_⟩
  · rw [updateJson_absent fs p _ h]
    rfl
  · rw [updateJson_present _ p (.obj [("a", .num 1)]) _
      (existsSync_writeJson fs p _) (readJson_write fs p _)]
    rfl
  · exact readJson_write _ p _
  · rw [updateJson_present _ p (.obj [("a", .num 1), ("b", .num 2)]) _
      (existsSync_writeJson _ p _) (readJson_write _ p _)]
    rfl
  · exact readJson_write _ p _
  · rw [updateJson_absent fs p _ h]
    rfl
  · rw [updateJson_present _ p (.obj [("a", .obj [("x", .num 1)])]) _
      (existsSync_writeJson fs p _) (readJson_write fs p _)]
    rfl
  · exact readJson_write _ p _

theorem claim_C1_witness :
    (FS.existsSync ⟨[], []⟩ ["pkg.json"] = false) ∧
    (∃ fs1 fs2 fs3 gs1 gs2,
      Utils.updateJsonFile ⟨[], []⟩ ["pkg.json"] (.obj [("a", .num 1)]) =
        .ok fs1 ∧
      Utils.updateJsonFile fs1 ["pkg.json"] (.obj [("b", .num 2)]) =
        .ok fs2 ∧
      Utils.readJsonFile fs2 ["pkg.json"] =
        .ok (.obj [("a", .num 1), ("b", .num 2)]) ∧
      Utils.updateJsonFile fs2 ["pkg.json"] (.obj [("a", .num 3)]) =
        .ok fs3 ∧
      Utils.readJsonFile fs3 ["pkg.json"] =
        .ok (.obj [("a", .num 3), ("b", .num 2)]) ∧
      Utils.updateJsonFile ⟨[], []⟩ ["pkg.json"]
        (.obj [("a", .obj [("x", .num 1)])]) = .ok gs1 ∧
      Utils.updateJsonFile gs1 ["pkg.json"]
        (.obj [("a", .obj [("y", .num 2)])]) = .ok gs2 ∧
      Utils.readJsonFile gs2 ["pkg.json"] =
        .ok (.obj [("a", .obj [("y", .num 2)])])) :=
  ⟨rfl, claim_C1 ⟨[], []⟩ ["pkg.json"] rfl⟩

/-! ## Copy-tree lemmas -/

theorem remapUnder_self (src dst rel : FsPath) :
    remapUnder src dst (src ++ rel) = some (dst ++ rel) := by
  unfold remapUnder
  rw [if_pos (List.isPrefixOf_iff_prefix.mpr (List.prefix_append src rel)),
    List.drop_left]

theorem remapUnder_eq_some {src dst p q : FsPath}
    (h : remapUnder src dst p = some q) :
    ∃ rel, p = src ++ rel ∧ q = dst ++ rel := by
  unfold remapUnder at h
  split at h
  · next hpre =>
    obtain ⟨rel0, hrel⟩ := List.isPrefixOf_iff_prefix.mp hpre
    cases h
    exact ⟨p.drop src.length, by rw [← hrel, List.drop_left], rfl⟩
  · cases h

theorem copyTree_find_some (src dst rel : FsPath) (c : String) :
    ∀ files : List (FsPath × String),
      (files.find? fun e => e.1 = src ++ rel) = some (src ++ rel, c) →
      ((files.filterMap fun e =>
          match remapUnder src dst e.1 with
          | some q => some (q, e.2)
          | none => none).find? fun e => e.1 = dst ++ rel) =
        some (dst ++ rel, c) := by
  intro files
  induction files with
  | nil => simp
  | cons e0 tl ih =>
    obtain ⟨p0, c0⟩ := e0
    intro hfind
    by_cases hp : p0 = src ++ rel
    · subst hp
      rw [List.find?_cons_of_pos _ (by simp)] at hfind
      injection hfind with hpair
      have hc0 : c0 = c := congrArg Prod.snd hpair
      subst hc0
      simp only [List.filterMap_cons, remapUnder_self]
      rw [List.find?_cons_of_pos _ (by simp)]
    · rw [List.find?_cons_of_neg _ (by simp [hp])] at hfind
      simp only [List.filterMap_cons]
      rcases hrm : remapUnder src dst p0 with - | q
      · simp only [hrm]
        exact ih hfind
      · obtain ⟨rel0, hp0, hq⟩ := remapUnder_eq_some hrm
        have hqne : q ≠ dst ++ rel := by
          intro he
          apply hp
          rw [hq] at he
          rw [hp0, List.append_cancel_left he]
        simp only [hrm]
        rw [List.find?_cons_of_neg _ (by simp [hqne])]
        exact ih hfind

theorem copyTree_find_frame (src dst q : FsPath)
    (files : List (FsPath × String))
    (h : ∀ rel, q = dst ++ rel →
      (files.find? fun e => e.1 = src ++ rel) = none) :
    ((files.filterMap fun e =>
        match remapUnder src dst e.1 with
        | some q2 => some (q2, e.2)
        | none => none).find? fun e => e.1 = q) = none := by
  rw [List.find?_eq_none]
  intro x hx
  rw [List.mem_filterMap] at hx
  obtain ⟨⟨p0, c0⟩, hmem, hfx⟩ := hx
  rcases hrm : remapUnder src dst p0 with - | q2
  · simp [hrm] at hfx
  · simp only [hrm] at hfx
    obtain ⟨rel0, hp0, hq2⟩ := remapUnder_eq_some hrm
    injection hfx with hx2
    subst hx2
    simp only [decide_eq_true_eq]
    intro he
    have h2 := h rel0 (by rw [← he, hq2])
    rw [List.find?_eq_none] at h2
    exact h2 (p0, c0) hmem (by simp [hp0])

/-- C4: when the template source directory exists,
`copyCliPackageTemplate` creates the target directory, copies every file
of the source tree to the corresponding relative path under the target
(overwriting same-named files), and leaves every target file with no
counterpart in the source unchanged. -/
theorem claim_C4 (templateType packageName : String) (monorepoRoot : FsPath)
    (repo : String) (cliRoot : FsPath) (fs : FS)
    (h : fs.existsSync (cliRoot ++ ["templates", templateType]) = true) :
    (monorepoRoot ++ [repo, packageName]) ∈
      (Utils.copyCliPackageTemplate templateType packageName monorepoRoot
        repo cliRoot fs).2.dirs ∧
    (∀ rel c,
      fs.readFile (cliRoot ++ ["templates", templateType] ++ rel) = some c →
      (Utils.copyCliPackageTemplate templateType packageName monorepoRoot
          repo cliRoot fs).2.readFile
        (monorepoRoot ++ [repo, packageName] ++ rel) = some c) ∧
    (∀ q, (¬ ∃ rel, q = monorepoRoot ++ [repo, packageName] ++ rel ∧
        ∃ c, fs.readFile (cliRoot ++ ["templates", templateType] ++ rel) =
          some c) →
      (Utils.copyCliPackageTemplate templateType packageName monorepoRoot
          repo cliRoot fs).2.readFile q = fs.readFile q) := by
  have hres : (Utils.copyCliPackageTemplate templateType packageName
      monorepoRoot repo cliRoot fs).2 =
      (fs.ensureDir (monorepoRoot ++ [repo, packageName])).copyTree
        (cliRoot ++ ["templates", templateType])
        (monorepoRoot ++ [repo, packageName]) := by
    simp [Utils.copyCliPackageTemplate, h]
  rw [hres]
  refine ⟨?_, ?_, ?_⟩
  · simp [FS.copyTree, FS.ensureDir]
  · intro rel c hrc
    unfold FS.readFile at hrc ⊢
    simp only [FS.copyTree, FS.ensureDir]
    rcases hf : fs.files.find? fun e =>
        e.1 = cliRoot ++ ["templates", templateType] ++ rel with - | e
    · rw [hf] at hrc
      cases hrc
    · rw [hf] at hrc
      have he1 : e.1 = cliRoot ++ ["templates", templateType] ++ rel := by
        have := List.find?_some hf
        simpa using this
      have he2 : e.2 = c := by
        simpa using hrc
      have hfind : (fs.files.find? fun x =>
          x.1 = cliRoot ++ ["templates", templateType] ++ rel) =
          some (cliRoot ++ ["templates", templateType] ++ rel, c) := by
        rw [hf, ← he1, ← he2]
      rw [List.find?_append, copyTree_find_some _ _ _ _ _ hfind]
      simp
  · intro q hq
    unfold FS.readFile
    simp only [FS.copyTree, FS.ensureDir]
    rw [List.find?_append, copyTree_find_frame]
    · simp
    · intro rel hrel
      rcases hf : fs.files.find? fun e =>
          e.1 = cliRoot ++ ["templates", templateType] ++ rel with - | e
      · exact hf
      · exfalso
        apply hq
        refine ⟨rel, hrel, e.2, ?_⟩
        unfold FS.readFile
        rw [hf]
        rfl

theorem claim_C4_witness :
    (FS.existsSync ⟨[["cli", "templates", "db"]],
        [(["cli", "templates", "db", "x.txt"], "tpl")]⟩
      (["cli"] ++ ["templates", "db"]) = true) ∧
    ((["m"] ++ ["packages", "db"]) ∈
      (Utils.copyCliPackageTemplate "db" "db" ["m"] "packages" ["cli"]
        ⟨[["cli", "templates", "db"]],
         [(["cli", "templates", "db", "x.txt"], "tpl")]⟩).2.dirs ∧
     (∀ rel c,
       FS.readFile ⟨[["cli", "templates", "db"]],
           [(["cli", "templates", "db", "x.txt"], "tpl")]⟩
         (["cli"] ++ ["templates", "db"] ++ rel) = some c →
       (Utils.copyCliPackageTemplate "db" "db" ["m"] "packages" ["cli"]
           ⟨[["cli", "templates", "db"]],
            [(["cli", "templates", "db", "x.txt"], "tpl")]⟩).2.readFile
         (["m"] ++ ["packages", "db"] ++ rel) = some c) ∧
     (∀ q, (¬ ∃ rel, q = ["m"] ++ ["packages", "db"] ++ rel ∧
         ∃ c, FS.readFile ⟨[["cli", "templates", "db"]],
             [(["cli", "templates", "db", "x.txt"], "tpl")]⟩
           (["cli"] ++ ["templates", "db"] ++ rel) = some c) →
       (Utils.copyCliPackageTemplate "db" "db" ["m"] "packages" ["cli"]
           ⟨[["cli", "templates", "db"]],
            [(["cli", "templates", "db", "x.txt"], "tpl")]⟩).2.readFile q =
         FS.readFile ⟨[["cli", "templates", "db"]],
           [(["cli", "templates", "db", "x.txt"], "tpl")]⟩ q)) :=
  ⟨rfl, claim_C4 "db" "db" ["m"] "packages" ["cli"]
    ⟨[["cli", "templates", "db"]],
     [(["cli", "templates", "db", "x.txt"], "tpl")]⟩ rfl⟩

/-- C7: a successful `app <name> --node` run produces
`apps/<name>/src/index.ts` containing the fixed greeting statement and
`apps/<name>/package.json` whose `name` field is `"@repo/<name>"`. -/
theorem claim_C7 (name promptChoice : String) :
    fileAt (Index.initializeApp name (Index.resolveAppType false true)
        promptChoice) ["apps", name, "src", "index.ts"] =
      some Index.greetingStatement ∧
    (readJsonAt (Index.initializeApp name (Index.resolveAppType false true)
        promptChoice) ["apps", name, "package.json"]).bind
      (fun j => jGet j "name") = some (.str ("@repo/" ++ name)) := by
  constructor
  · simp [Index.initializeApp, Index.resolveAppType, fileAt]
  · simp [Index.initializeApp, Index.resolveAppType, readJsonAt, fileAt,
      parseJson_stringify2, jGet, Index.appNodePackageJson, List.lookup]

/-- C6: a successful `init <name>` run produces, for every workspace
name: a root `package.json` whose `packageManager` is `"pnpm@"` joined to
the detected-or-fallback version; a `turbo.json` whose parsed
`tasks.build.dependsOn` is `["^build"]`; `packages/db/package.json` with
name `"@repo/db"`; and `packages/queue/package.json` with name
`"@repo/queue"`.  The external formatter applied to `turbo.json` is
assumed JSON-semantics-preserving. -/
theorem claim_C6 (appName : String) (pnpm : CmdResult)
    (fmt : String → String)
    (hfmt : ∀ s, parseJson (fmt s) = parseJson s) :
    (readJsonAt (Index.initializeMonorepo appName pnpm fmt)
        [appName, "package.json"]).bind
      (fun j => jGet j "packageManager") =
      some (.str ("pnpm@" ++ Index.getPnpmVersion pnpm)) ∧
    (((readJsonAt (Index.initializeMonorepo appName pnpm fmt)
        [appName, "turbo.json"]).bind
      (fun j => jGet j "tasks")).bind
      (fun j => jGet j "build")).bind
      (fun j => jGet j "dependsOn") = some (.arr [.str "^build"]) ∧
    (readJsonAt (Index.initializeMonorepo appName pnpm fmt)
        [appName, "packages", "db", "package.json"]).bind
      (fun j => jGet j "name") = some (.str "@repo/db") ∧
    (readJsonAt (Index.initializeMonorepo appName pnpm fmt)
        [appName, "packages", "queue", "package.json"]).bind
      (fun j => jGet j "name") = some (.str "@repo/queue") := by
  refine ⟨?_, ?_, ?_, ?_⟩
  · simp [Index.initializeMonorepo, Index.initPreludeTrace,
      Index.dbUnitTrace, Index.queueUnitTrace, Index.createPackage,
      Index.dbFiles, Index.queueFiles, readJsonAt, fileAt,
      parseJson_stringify2, jGet, Index.rootPackageJson, List.lookup]
  · simp [Index.initializeMonorepo, Index.initPreludeTrace,
      Index.dbUnitTrace, Index.queueUnitTrace, Index.createPackage,
      Index.dbFiles, Index.queueFiles, readJsonAt, fileAt, hfmt,
      parseJson_stringifyC, jGet, Index.turboConfig, List.lookup]
  · simp [Index.initializeMonorepo, Index.initPreludeTrace,
      Index.dbUnitTrace, Index.queueUnitTrace, Index.createPackage,
      Index.dbFiles, Index.queueFiles, readJsonAt, fileAt,
      parseJson_stringify2, jGet, Index.packageJsonOf, List.lookup]
  · simp [Index.initializeMonorepo, Index.initPreludeTrace,
      Index.dbUnitTrace, Index.queueUnitTrace, Index.createPackage,
      Index.dbFiles, Index.queueFiles, readJsonAt, fileAt,
      parseJson_stringify2, jGet, Index.packageJsonOf, List.lookup]

theorem claim_C6_witness :
    (∀ s, parseJson (id s) = parseJson s) ∧
    ((readJsonAt (Index.initializeMonorepo "demo" .err id)
        ["demo", "package.json"]).bind
      (fun j => jGet j "packageManager") =
      some (.str ("pnpm@" ++ Index.getPnpmVersion .err)) ∧
    (((readJsonAt (Index.initializeMonorepo "demo" .err id)
        ["demo", "turbo.json"]).bind
      (fun j => jGet j "tasks")).bind
      (fun j => jGet j "build")).bind
      (fun j => jGet j "dependsOn") = some (.arr [.str "^build"]) ∧
    (readJsonAt (Index.initializeMonorepo "demo" .err id)
        ["demo", "packages", "db", "package.json"]).bind
      (fun j => jGet j "name") = some (.str "@repo/db") ∧
    (readJsonAt (Index.initializeMonorepo "demo" .err id)
        ["demo", "packages", "queue", "package.json"]).bind
      (fun j => jGet j "name") = some (.str "@repo/queue")) :=
  ⟨fun _ => rfl, claim_C6 "demo" .err id (fun _ => rfl)⟩

end CreateNx
